import Mathlib

set_option maxRecDepth 100000

/-!
Shallow embedding of the QKD-FH simulation (K-Jadeja/Quantum-Frequency-Hopping-Sim).

Bits and bases are modelled as `Nat` (the Python code uses the ints 0/1, and in
the QBER step a received check character may parse to an arbitrary integer, so
`Nat` keeps the comparison semantics faithful).  Wire payloads are modelled as
`List Char`.  Fallible protocol steps return `Option`/sum-like results: `none`
models the code raising an exception (session abort).
-/

namespace QkdFh

/-! ### Sifting (qkd_sender.py lines 86-121, qkd_receiver.py lines 119-127)

The sender walks `j` over `range(min(len(bob_bases_list), photons_sent_count))`,
looks up its own basis for the `j`-th *sent* photon (via `photons_sent_indices[j]`
into the `sender_bases_sent` dict, which by construction contains every sent
index), and records `j` when the bases agree.  In sent-photon order this is a
positional comparison of the sender's sent-basis list with Bob's basis list. -/

def match_indices_relative (alice_bases bob_bases : List Nat) : List Nat :=
  (List.range (min bob_bases.length alice_bases.length)).filter
    (fun j => decide (alice_bases.getD j 0 = bob_bases.getD j 0))

/-- Sender's sifted key (qkd_sender.py lines 110-121): for each relative match
index `j`, if `j` is in range of the sent-photon list, append the originally
sent bit (`sender_bits_sent[photons_sent_indices[j]]`, i.e. the `j`-th sent
bit); an out-of-range `j` is skipped with an error log. -/
def sifted_sender_key (alice_bits alice_bases bob_bases : List Nat) : List Nat :=
  (match_indices_relative alice_bases bob_bases).filterMap (fun j => alice_bits.get? j)

/-- Receiver's sifted key (qkd_receiver.py lines 119-127): for each received
relative match index in order, take the measured bit at that position of
`received_photon_info`; an out-of-range index raises `IndexError` (abort),
modelled by `none`. -/
def sifted_receiver_key (measured : List Nat) : List Nat → Option (List Nat)
  | [] => some []
  | j :: rest =>
    match measured.get? j with
    | some b =>
      match sifted_receiver_key measured rest with
      | some t => some (b :: t)
      | none => none
    | none => none

/-! ### QBER mismatch counting (qkd_sender.py lines 141-166) -/

/-- The starts of the 66 runs of Unicode decimal-digit characters (category
Nd, Unicode 14.0.0 as used by CPython 3.11's `unicodedata`); each run is the
ten consecutive digits 0-9 of one script's digit set. -/
def nd_digit_run_starts : List Nat :=
  [48, 1632, 1776, 1984, 2406, 2534, 2662, 2790,
   2918, 3046, 3174, 3302, 3430, 3558, 3664, 3792,
   3872, 4160, 4240, 6112, 6160, 6470, 6608, 6784,
   6800, 6992, 7088, 7232, 7248, 42528, 43216, 43264,
   43472, 43504, 43600, 44016, 65296, 66720, 68912, 69734,
   69872, 69942, 70096, 70384, 70736, 70864, 71248, 71360,
   71472, 71904, 72016, 72784, 73040, 73120, 92768, 92864,
   93008, 120782, 120792, 120802, 120812, 120822, 123200, 123632,
   125264, 130032]

/-- Model of Python `int(c)` on a single payload character: any Unicode
decimal digit (category Nd) parses to its decimal value — both ASCII `1`
(U+0031) and, e.g., Arabic-Indic U+0661 parse to 1 — and every other
character (including whitespace, signs, and non-decimal numerals) raises
`ValueError`, modelled by `none`. -/
def parse_bit_char (c : Char) : Option Nat :=
  match nd_digit_run_starts.find?
      (fun s => decide (s ≤ c.toNat) && decide (c.toNat ≤ s + 9)) with
  | some s => some (c.toNat - s)
  | none => none

/-- The mismatch contribution of one loop iteration of qkd_sender.py lines
152-164: `i` is the enumerate position, `rel` the check index.  Out-of-range
`rel` hits the `else` branch (`mismatches += 1`); an unparsable character or an
out-of-range payload access is caught by `except (ValueError, IndexError)` and
also counted as one mismatch. -/
def mismatch_at (sifted : List Nat) (payload : List Char) (i rel : Nat) : Nat :=
  if rel < sifted.length then
    match payload.get? i with
    | some c =>
      match parse_bit_char c with
      | some b => if sifted.getD rel 0 ≠ b then 1 else 0
      | none => 1
    | none => 1
  else 1

/-- Mismatch count of the DECIDE loop (qkd_sender.py lines 151-164). -/
def count_mismatches (sifted : List Nat) (check_idx : List Nat) (payload : List Char) : Nat :=
  (check_idx.enum.map (fun p => mismatch_at sifted payload p.1 p.2)).sum

/-- The same loop body restricted to the positions that the `zip` of the check
indices with the payload provides: structurally incapable of reading the
payload past its end.  Used to state that the guarded loop never does either. -/
def count_mismatches_zip (sifted : List Nat) (check_idx : List Nat) (payload : List Char) : Nat :=
  ((check_idx.zip payload).map (fun p =>
    if p.1 < sifted.length then
      match parse_bit_char p.2 with
      | some b => if sifted.getD p.1 0 ≠ b then 1 else 0
      | none => 1
    else 1)).sum

/-- AWAIT_CHECK_BITS guard (qkd_sender.py lines 147-148): a payload whose
length differs from the requested sample size raises `ValueError` (abort,
modelled `none`) before any bit is compared. -/
def receive_check_bits (check_idx : List Nat) (payload : List Char) : Option (List Char) :=
  if payload.length ≠ check_idx.length then none else some payload

/-! ### Final key construction and the DECIDE step
(qkd_sender.py lines 150-197, qkd_receiver.py lines 170-186) -/

/-- `[sifted[i] for i in range(len(sifted)) if i not in check_idx]`
(qkd_sender.py line 182, qkd_receiver.py line 171). -/
def final_key_bits (sifted : List Nat) (check_idx : List Nat) : List Nat :=
  ((List.range sifted.length).filter (fun i => decide (i ∉ check_idx))).filterMap
    (fun i => sifted.get? i)

/-- Post-CONFIRM final-key step (qkd_sender.py lines 181-197): build the key
with the checked positions removed; if fewer than `key_length` bits remain the
session ends as Key Too Short with no key (`none`), else truncate. -/
def final_key_step (sifted : List Nat) (check_idx : List Nat) (key_length : Nat) :
    Option (List Nat) :=
  let fk := final_key_bits sifted check_idx
  if fk.length < key_length then none else some (fk.take key_length)

/-- Outcome of the sender's DECIDE step. -/
inductive SenderOutcome where
  | abortQberHigh : SenderOutcome
  | keyTooShort : SenderOutcome
  | success : List Nat → SenderOutcome
deriving DecidableEq

/-- `qber = mismatches / len(check_indices) if check_indices else 0`
(qkd_sender.py line 166), over exact rationals. -/
def qber_of (mismatches sample_size : Nat) : ℚ :=
  if sample_size ≠ 0 then (mismatches : ℚ) / (sample_size : ℚ) else 0

/-- DECIDE (qkd_sender.py lines 150-197): count mismatches over the received
check bits, abort when `qber > threshold` (strict), otherwise confirm and run
the final-key step. -/
def sender_decide (sifted : List Nat) (check_idx : List Nat) (payload : List Char)
    (threshold : ℚ) (key_length : Nat) : SenderOutcome :=
  let mismatches := count_mismatches sifted check_idx payload
  let qber := qber_of mismatches check_idx.length
  if threshold < qber then SenderOutcome.abortQberHigh
  else
    match final_key_step sifted check_idx key_length with
    | none => SenderOutcome.keyTooShort
    | some k => SenderOutcome.success k

/-! ### Verification-sample sizing (qkd_sender.py lines 127-139) -/

/-- Sample-size selection and its abort conditions, as the code computes them:
`check_len = max(1, min(n // 4, key_length * 2))`; if `n <= check_len` then
`check_len = max(1, n // 2)`; if still `n <= check_len`, raise (abort).  The
`n = 0` case is the earlier "no matching bases" abort (line 128). -/
def propose_check_len (n key_length : Nat) : Option Nat :=
  if n = 0 then none
  else
    let c1 := max 1 (min (n / 4) (key_length * 2))
    let c2 := if n ≤ c1 then max 1 (n / 2) else c1
    if n ≤ c2 then none else some c2

/-- Modelled from the claim text (refinement comparison only): the same
computation with the shrink step taken verbatim as "shrunk to
`sifted_len // 2`", i.e. without the code's `max(1, ·)`. -/
def propose_check_len_claim (n key_length : Nat) : Option Nat :=
  if n = 0 then none
  else
    let c1 := max 1 (min (n / 4) (key_length * 2))
    let c2 := if n ≤ c1 then n / 2 else c1
    if n ≤ c2 then none else some c2

/-- `sorted(random.sample(range(n), check_len))` (qkd_sender.py line 135):
the drawn sample is a parameter (the PRNG is external nondeterminism); the
code sorts it ascending. -/
def sorted_check_indices (sample : List Nat) : List Nat :=
  sample.insertionSort (· ≤ ·)

/-! ### Receiver check-index validation (qkd_receiver.py lines 150-157) -/

/-- `str(bit)` for a 0/1 bit: the corresponding ASCII digit. -/
def bit_char (b : Nat) : Char := Char.ofNat (48 + b)

/-- Validate the received check indices against the local sifted key and build
the CHECK_BITS reply.  Indices arrive as Python ints (possibly negative).  An
empty list skips validation and replies with the empty string; otherwise any
index `< 0` or `>= len(sifted)` raises `IndexError` (abort, `none`); otherwise
the reply is the sifted bits at the requested indices in requested order. -/
def receiver_check_bits (sifted : List Nat) (idxs : List Int) : Option (List Char) :=
  if idxs.isEmpty then some []
  else if idxs.any (fun i => decide (i < 0) || decide ((sifted.length : Int) ≤ i)) then none
  else some (idxs.map (fun i => bit_char (sifted.getD i.toNat 0)))

/-! ### SHA-256 (for utils.py `derive_seed_from_key`, lines 36-46)

A byte-level implementation of FIPS 180-4 SHA-256 over `Nat`, with 32-bit
words represented as naturals reduced modulo `2^32`.  Messages and digests are
lists of bytes (naturals below 256). -/

/-- Reduce to a 32-bit word. -/
def w32 (x : Nat) : Nat := x % 4294967296

/-- 32-bit right rotation (argument assumed `< 2^32`). -/
def rotr32 (n x : Nat) : Nat := w32 (Nat.lor (x >>> n) (x <<< (32 - n)))

def sha_ch (x y z : Nat) : Nat := Nat.xor (Nat.land x y) (Nat.land (Nat.xor x 4294967295) z)

def sha_maj (x y z : Nat) : Nat :=
  Nat.xor (Nat.land x y) (Nat.xor (Nat.land x z) (Nat.land y z))

def big_sigma0 (x : Nat) : Nat := Nat.xor (rotr32 2 x) (Nat.xor (rotr32 13 x) (rotr32 22 x))

def big_sigma1 (x : Nat) : Nat := Nat.xor (rotr32 6 x) (Nat.xor (rotr32 11 x) (rotr32 25 x))

def small_sigma0 (x : Nat) : Nat := Nat.xor (rotr32 7 x) (Nat.xor (rotr32 18 x) (x >>> 3))

def small_sigma1 (x : Nat) : Nat := Nat.xor (rotr32 17 x) (Nat.xor (rotr32 19 x) (x >>> 10))

/-- The 64 SHA-256 round constants, in decimal. -/
def sha_k : List Nat :=
  [1116352408, 1899447441, 3049323471, 3921009573,
   961987163, 1508970993, 2453635748, 2870763221,
   3624381080, 310598401, 607225278, 1426881987,
   1925078388, 2162078206, 2614888103, 3248222580,
   3835390401, 4022224774, 264347078, 604807628,
   770255983, 1249150122, 1555081692, 1996064986,
   2554220882, 2821834349, 2952996808, 3210313671,
   3336571891, 3584528711, 113926993, 338241895,
   666307205, 773529912, 1294757372, 1396182291,
   1695183700, 1986661051, 2177026350, 2456956037,
   2730485921, 2820302411, 3259730800, 3345764771,
   3516065817, 3600352804, 4094571909, 275423344,
   430227734, 506948616, 659060556, 883997877,
   958139571, 1322822218, 1537002063, 1747873779,
   1955562222, 2024104815, 2227730452, 2361852424,
   2428436474, 2756734187, 3204031479, 3329325298]

/-- `n` bytes of `x`, big-endian. -/
def bytes_be (n x : Nat) : List Nat :=
  (List.range n).map (fun i => (x >>> (8 * (n - 1 - i))) % 256)

/-- SHA-256 padding: append `0x80`, zero bytes to 56 mod 64, then the bit
length as an 8-byte big-endian integer. -/
def sha256_pad (msg : List Nat) : List Nat :=
  let zeros := (56 + 64 - ((msg.length + 1) % 64)) % 64
  msg ++ [128] ++ List.replicate zeros 0 ++ bytes_be 8 (msg.length * 8)

/-- The 16 initial 32-bit schedule words of a 64-byte block. -/
def block_words (block : List Nat) : List Nat :=
  (List.range 16).map (fun t =>
    block.getD (4 * t) 0 * 16777216 + block.getD (4 * t + 1) 0 * 65536 +
      block.getD (4 * t + 2) 0 * 256 + block.getD (4 * t + 3) 0)

/-- Extend the 16 block words to the 64-entry message schedule. -/
def message_schedule (block : List Nat) : List Nat :=
  (List.range 48).foldl
    (fun w _ =>
      let t := w.length
      w ++ [w32 (small_sigma1 (w.getD (t - 2) 0) + w.getD (t - 7) 0 +
        small_sigma0 (w.getD (t - 15) 0) + w.getD (t - 16) 0)])
    (block_words block)

/-- One SHA-256 round on the working state `[a,b,c,d,e,f,g,h]`. -/
def sha_round (k w : Nat) (s : List Nat) : List Nat :=
  match s with
  | [a, b, c, d, e, f, g, h] =>
    let t1 := w32 (h + big_sigma1 e + sha_ch e f g + k + w)
    let t2 := w32 (big_sigma0 a + sha_maj a b c)
    [w32 (t1 + t2), a, b, c, w32 (d + t1), e, f, g]
  | other => other

/-- Compress one 64-byte block into the running hash state (8 words). -/
def sha_compress (h : List Nat) (block : List Nat) : List Nat :=
  let w := message_schedule block
  let s := (List.range 64).foldl (fun s t => sha_round (sha_k.getD t 0) (w.getD t 0) s) h
  (h.zip s).map (fun p => w32 (p.1 + p.2))

/-- SHA-256 initial hash state, in decimal. -/
def sha256_init : List Nat :=
  [1779033703, 3144134277, 1013904242, 2773480762,
   1359893119, 2600822924, 528734635, 1541459225]

/-- SHA-256 of a byte list, as the 8 final hash words. -/
def sha256_words (msg : List Nat) : List Nat :=
  let padded := sha256_pad msg
  (List.range (padded.length / 64)).foldl
    (fun h i => sha_compress h ((padded.drop (64 * i)).take 64)) sha256_init

/-- SHA-256 digest of a byte list, as 32 bytes. -/
def sha256 (msg : List Nat) : List Nat :=
  (sha256_words msg).foldr (fun w acc => bytes_be 4 w ++ acc) []

/-- Big-endian byte list to natural number (Python `int.from_bytes(b, 'big')`). -/
def nat_of_bytes_be (bs : List Nat) : Nat := bs.foldl (fun acc b => acc * 256 + b) 0

/-! ### utils.py -/

/-- utils.py lines 36-46, `derive_seed_from_key`: on an empty or short key
(fewer than 8 bits) fall back to a random seed (`none` — the result does not
depend on the key); otherwise hash the key's bits written as the ASCII string
of its digits (`"".join(map(str, key))`, each 0/1 bit giving byte `48 + bit`)
and take the first 4 digest bytes as a big-endian unsigned integer. -/
def derive_seed_from_key (key : List Nat) : Option Nat :=
  if key.length < 8 then none
  else some (nat_of_bytes_be ((sha256 (key.map (fun b => 48 + b))).take 4))

/-- `local_random.choice(frequencies)`: pick index `_randbelow(len(frequencies))`
from the Mersenne-Twister state `s`; the generator itself is external library
code, modelled by the state type `S` with transition `randbelow`. -/
def rng_choice {S α : Type} [Inhabited α] (randbelow : S → Nat → Nat × S)
    (freqs : List α) (s : S) : α × S :=
  let p := randbelow s freqs.length
  (freqs.getD p.1 default, p.2)

/-- The list comprehension `[local_random.choice(frequencies) for _ in range(length)]`,
threading the local generator state. -/
def draw_pattern {S α : Type} [Inhabited α] (randbelow : S → Nat → Nat × S)
    (freqs : List α) : Nat → S → List α
  | 0, _ => []
  | Nat.succ n, s =>
    let p := rng_choice randbelow freqs s
    p.1 :: draw_pattern randbelow freqs n p.2

/-- utils.py lines 48-59, `generate_hopping_pattern`: return `[]` when the
frequency list is empty or `length <= 0`; otherwise seed a fresh local
generator (`random.Random(seed)`, modelled by `random_Random`) and draw
`length` choices from it.  The global generator state `g` (Python's module
level `random`) is threaded through to show it is neither read nor written. -/
def generate_hopping_pattern {S G α : Type} [Inhabited α] (random_Random : Nat → S)
    (randbelow : S → Nat → Nat × S) (seed : Nat) (length : Int) (frequencies : List α)
    (g : G) : List α × G :=
  if frequencies.isEmpty then ([], g)
  else if length ≤ 0 then ([], g)
  else (draw_pattern randbelow frequencies length.toNat (random_Random seed), g)

/-! ## Helper lemmas -/

theorem get?_eq_some_getD {l : List Nat} {j : Nat} (h : j < l.length) :
    l.get? j = some (l.getD j 0) := by
  rw [List.get?_eq_getElem?, List.getElem?_eq_getElem h, List.getD_eq_getElem l 0 h]

theorem sifted_receiver_key_eq_filterMap (measured bits : List Nat) :
    ∀ idxs : List Nat, (∀ j ∈ idxs, measured.get? j = bits.get? j) →
      (∀ j ∈ idxs, j < bits.length) →
      sifted_receiver_key measured idxs = some (idxs.filterMap (fun j => bits.get? j))
  | [], _, _ => rfl
  | j :: rest, hag, hlt => by
    have hj : j < bits.length := hlt j (List.mem_cons_self j rest)
    have hbj : bits.get? j = some (bits.getD j 0) := get?_eq_some_getD hj
    have hmj : measured.get? j = some (bits.getD j 0) := by
      rw [hag j (List.mem_cons_self j rest), hbj]
    have ih := sifted_receiver_key_eq_filterMap measured bits rest
      (fun i hi => hag i (List.mem_cons_of_mem j hi))
      (fun i hi => hlt i (List.mem_cons_of_mem j hi))
    simp only [sifted_receiver_key, List.filterMap_cons, hmj, hbj, ih]

theorem mismatch_at_cons_shift (s : List Nat) (c : Char) (cs : List Char) (n rel : Nat) :
    mismatch_at s (c :: cs) (n + 1) rel = mismatch_at s cs n rel := by
  simp [mismatch_at]

theorem enumFrom_mismatch_shift (s : List Nat) (c : Char) (cs : List Char) :
    ∀ (rest : List Nat) (n : Nat),
      ((List.enumFrom (n + 1) rest).map (fun p => mismatch_at s (c :: cs) p.1 p.2)).sum
        = ((List.enumFrom n rest).map (fun p => mismatch_at s cs p.1 p.2)).sum
  | [], _ => rfl
  | r :: rest, n => by
    simp only [List.enumFrom, List.map_cons, List.sum_cons, mismatch_at_cons_shift,
      enumFrom_mismatch_shift s c cs rest (n + 1)]

theorem count_mismatches_eq_zip_of_length (s : List Nat) :
    ∀ (idxs : List Nat) (payload : List Char), payload.length = idxs.length →
      count_mismatches s idxs payload = count_mismatches_zip s idxs payload
  | [], payload, h => by
    have : payload = [] := List.length_eq_zero.mp h
    subst this
    rfl
  | r :: rest, [], h => by simp at h
  | r :: rest, c :: cs, h => by
    have hlen : cs.length = rest.length := by simpa using h
    have ih := count_mismatches_eq_zip_of_length s rest cs hlen
    simp only [count_mismatches, count_mismatches_zip, List.enum_cons, List.map_cons,
      List.sum_cons, List.zip_cons_cons] at ih ⊢
    rw [enumFrom_mismatch_shift s c cs rest 0]
    have hhead : mismatch_at s (c :: cs) 0 r =
        (if r < s.length then
          match parse_bit_char c with
          | some b => if s.getD r 0 ≠ b then 1 else 0
          | none => 1
        else 1) := rfl
    rw [hhead]
    have htail : ((List.enumFrom 0 rest).map (fun p => mismatch_at s cs p.1 p.2)).sum
        = ((rest.zip cs).map (fun p =>
            if p.1 < s.length then
              match parse_bit_char p.2 with
              | some b => if s.getD p.1 0 ≠ b then 1 else 0
              | none => 1
            else 1)).sum := ih
    rw [htail]

theorem zip_mismatches_eq_countP (s : List Nat) :
    ∀ l : List (Nat × Char), (∀ p ∈ l, p.1 < s.length) →
      ((l.map (fun p =>
        if p.1 < s.length then
          match parse_bit_char p.2 with
          | some b => if s.getD p.1 0 ≠ b then 1 else 0
          | none => 1
        else 1)).sum
      = l.countP (fun p => decide (parse_bit_char p.2 ≠ some (s.getD p.1 0))))
  | [], _ => rfl
  | p :: l, h => by
    have hp : p.1 < s.length := h p (List.mem_cons_self p l)
    have ih := zip_mismatches_eq_countP s l (fun q hq => h q (List.mem_cons_of_mem p hq))
    have hentry : (if p.1 < s.length then
        match parse_bit_char p.2 with
        | some b => if s.getD p.1 0 ≠ b then 1 else 0
        | none => 1
      else 1) = (if parse_bit_char p.2 ≠ some (s.getD p.1 0) then 1 else 0 : Nat) := by
      rw [if_pos hp]
      rcases hparse : parse_bit_char p.2 with _ | b
      · simp
      · show (if s.getD p.1 0 ≠ b then 1 else 0 : Nat)
            = if some b ≠ some (s.getD p.1 0) then 1 else 0
        by_cases hb : s.getD p.1 0 = b
        · subst hb
          simp
        · rw [if_pos hb, if_pos (fun hcon => (Ne.symm hb) (Option.some.inj hcon))]
    simp only [List.map_cons, List.sum_cons, List.countP_cons, ih, hentry,
      decide_eq_true_eq]
    exact Nat.add_comm _ _

theorem length_filter_add_length_filter_not {α : Type} (p : α → Bool) :
    ∀ l : List α, (l.filter p).length + (l.filter (fun a => !p a)).length = l.length
  | [] => rfl
  | a :: l => by
    have ih := length_filter_add_length_filter_not p l
    by_cases h : p a <;> simp [List.filter_cons, h] <;> omega

theorem length_filter_mem_range (n : Nat) (s : List Nat) (hnd : s.Nodup)
    (hb : ∀ i ∈ s, i < n) :
    ((List.range n).filter (fun i => decide (i ∈ s))).length = s.length := by
  have hperm : ((List.range n).filter (fun i => decide (i ∈ s))).Perm s := by
    rw [List.perm_ext_iff_of_nodup ((List.nodup_range n).filter _) hnd]
    intro a
    constructor
    · intro ha
      exact of_decide_eq_true (List.mem_filter.mp ha).2
    · intro ha
      exact List.mem_filter.mpr ⟨List.mem_range.mpr (hb a ha), decide_eq_true ha⟩
  exact hperm.length_eq

theorem filterMap_get?_length (l : List Nat) :
    ∀ idxs : List Nat, (∀ i ∈ idxs, i < l.length) →
      (idxs.filterMap (fun i => l.get? i)).length = idxs.length
  | [], _ => rfl
  | i :: idxs, h => by
    have hi := h i (List.mem_cons_self i idxs)
    have ih := filterMap_get?_length l idxs (fun j hj => h j (List.mem_cons_of_mem i hj))
    simp only [List.filterMap_cons, get?_eq_some_getD hi, ih, List.length_cons]

theorem final_key_bits_length (sifted : List Nat) (s : List Nat) (hnd : s.Nodup)
    (hb : ∀ i ∈ s, i < sifted.length) :
    (final_key_bits sifted s).length = sifted.length - s.length := by
  unfold final_key_bits
  rw [filterMap_get?_length sifted _ (fun i hi =>
    List.mem_range.mp (List.mem_filter.mp hi).1)]
  have hpred : ((List.range sifted.length).filter (fun i => decide (i ∉ s)))
      = ((List.range sifted.length).filter (fun i => !(decide (i ∈ s)))) := by
    apply List.filter_congr
    intro x _
    simp [decide_not]
  rw [hpred]
  have hsplit := length_filter_add_length_filter_not
    (fun i => decide (i ∈ s)) (List.range sifted.length)
  have hmem := length_filter_mem_range sifted.length s hnd hb
  rw [List.length_range] at hsplit
  omega

end QkdFh

namespace QkdFh

/-! ## Claim theorems -/

/-- C1: Sifting symmetry.  For every sent list of (bit, basis) pairs and every
receiver basis choice, under the measurement rule (equal bases yield the
sender's bit at the same sent position) and with the receiver's `j`-th
received photon being the sender's `j`-th sent photon, the receiver's sifted
key built from the transmitted MATCH_INDICES_REL list equals the sender's
sifted key bit for bit, and in particular the two have equal length. -/
theorem sifting_symmetry (alice_bits alice_bases bob_bases measured : List Nat)
    (hlen_bits : alice_bits.length = alice_bases.length)
    (hlen_meas : measured.length = bob_bases.length)
    (hmeas : ∀ j, j < bob_bases.length → j < alice_bases.length →
      alice_bases.getD j 0 = bob_bases.getD j 0 → measured.get? j = alice_bits.get? j) :
    sifted_receiver_key measured (match_indices_relative alice_bases bob_bases)
      = some (sifted_sender_key alice_bits alice_bases bob_bases)
    ∧ ∀ sk, sifted_receiver_key measured (match_indices_relative alice_bases bob_bases)
        = some sk → sk.length = (sifted_sender_key alice_bits alice_bases bob_bases).length := by
  have hmem : ∀ j ∈ match_indices_relative alice_bases bob_bases,
      j < bob_bases.length ∧ j < alice_bases.length ∧
        alice_bases.getD j 0 = bob_bases.getD j 0 := by
    intro j hj
    rcases List.mem_filter.mp hj with ⟨hr, hp⟩
    have hlt := List.mem_range.mp hr
    refine ⟨lt_of_lt_of_le hlt (min_le_left _ _), lt_of_lt_of_le hlt (min_le_right _ _), ?_⟩
    exact of_decide_eq_true hp
  have hmain : sifted_receiver_key measured (match_indices_relative alice_bases bob_bases)
      = some (sifted_sender_key alice_bits alice_bases bob_bases) := by
    unfold sifted_sender_key
    refine sifted_receiver_key_eq_filterMap measured alice_bits _ ?_ ?_
    · intro j hj
      rcases hmem j hj with ⟨h1, h2, h3⟩
      exact hmeas j h1 h2 h3
    · intro j hj
      rcases hmem j hj with ⟨_, h2, _⟩
      exact hlen_bits ▸ h2
  refine ⟨hmain, ?_⟩
  intro sk hsk
  rw [hmain] at hsk
  rw [Option.some_inj.mp hsk]

/-- C1 witness: a concrete run with a loss pattern already applied
(sent-order lists), two matching bases, one mismatched basis. -/
theorem sifting_symmetry_witness :
    sifted_receiver_key [1, 0, 1] (match_indices_relative [0, 1, 1] [0, 0, 1])
      = some (sifted_sender_key [1, 1, 1] [0, 1, 1] [0, 0, 1]) :=
  (sifting_symmetry [1, 1, 1] [0, 1, 1] [0, 0, 1] [1, 0, 1]
    (by decide) (by decide) (by decide)).1

/-- C5: CHECK_BITS length guard.  A payload of the wrong length aborts with a
protocol violation before any bit is compared; when the guard passes, the
mismatch-counting loop computes the same value as a loop that can only access
payload positions `0 .. sample_size - 1` paired by `zip` — it never indexes
past the end of the payload. -/
theorem check_bits_length_guard (sifted check_idx : List Nat) (payload : List Char) :
    (receive_check_bits check_idx payload = none ↔ payload.length ≠ check_idx.length)
    ∧ (∀ q, receive_check_bits check_idx payload = some q →
        q = payload
        ∧ count_mismatches sifted check_idx payload
            = count_mismatches_zip sifted check_idx payload) := by
  by_cases h : payload.length = check_idx.length
  · refine ⟨by simp [receive_check_bits, h], ?_⟩
    intro q hq
    have hqp : q = payload := by
      simpa [receive_check_bits, h] using hq.symm
    exact ⟨hqp, count_mismatches_eq_zip_of_length sifted check_idx payload h⟩
  · refine ⟨by simp [receive_check_bits, h], ?_⟩
    intro q hq
    simp [receive_check_bits, h] at hq

/-- C5 witness: with a correct-length payload the guard passes and the two
loop formulations agree on a concrete session. -/
theorem check_bits_length_guard_witness :
    count_mismatches [1, 0, 1] [0, 2] [Char.ofNat 49, Char.ofNat 48]
      = count_mismatches_zip [1, 0, 1] [0, 2] [Char.ofNat 49, Char.ofNat 48] :=
  ((check_bits_length_guard [1, 0, 1] [0, 2] [Char.ofNat 49, Char.ofNat 48]).2
    [Char.ofNat 49, Char.ofNat 48] (by decide)).2

/-- C10: the DECIDE mismatch counting is total on any payload that passed the
length guard: a position whose character does not parse counts as exactly one
mismatch, a position whose character parses counts as one mismatch exactly
when the parsed value differs from the sender's sifted-key bit there (so one
mismatch exactly when the character is not the digit of that bit), and the
total never exceeds the sample size. -/
theorem mismatch_counting_total (sifted check_idx : List Nat) (payload : List Char)
    (hlen : payload.length = check_idx.length)
    (hb : ∀ i ∈ check_idx, i < sifted.length) :
    count_mismatches sifted check_idx payload
      = (check_idx.zip payload).countP
          (fun p => decide (parse_bit_char p.2 ≠ some (sifted.getD p.1 0)))
    ∧ count_mismatches sifted check_idx payload ≤ check_idx.length := by
  have hzip : ∀ p ∈ check_idx.zip payload, p.1 < sifted.length := by
    intro p hp
    have hmem : p.1 ∈ check_idx := by
      rcases p with ⟨a, b⟩
      exact (List.of_mem_zip hp).1
    exact hb p.1 hmem
  have hcount : count_mismatches sifted check_idx payload
      = (check_idx.zip payload).countP
          (fun p => decide (parse_bit_char p.2 ≠ some (sifted.getD p.1 0))) := by
    rw [count_mismatches_eq_zip_of_length sifted check_idx payload hlen]
    exact zip_mismatches_eq_countP sifted (check_idx.zip payload) hzip
  refine ⟨hcount, ?_⟩
  calc count_mismatches sifted check_idx payload
      = (check_idx.zip payload).countP
          (fun p => decide (parse_bit_char p.2 ≠ some (sifted.getD p.1 0))) := hcount
    _ ≤ (check_idx.zip payload).length := List.countP_le_length _
    _ ≤ check_idx.length := by
        rw [List.length_zip, hlen]
        exact min_le_left _ _

/-- C10 witness: payload of the Arabic-Indic digit one (U+0661) then `X`
against sifted bits `[1,0,1]` at indices `[0,2]`: position 0 parses to 1 as
Python `int()` does and matches, position 1 has an unparsable character and
counts as one mismatch; the total is within the sample size. -/
theorem mismatch_counting_total_witness :
    count_mismatches [1, 0, 1] [0, 2] [Char.ofNat 1633, Char.ofNat 88]
      = ([(0, Char.ofNat 1633), (2, Char.ofNat 88)] : List (Nat × Char)).countP
          (fun p => decide (parse_bit_char p.2 ≠ some (([1, 0, 1] : List Nat).getD p.1 0)))
    ∧ count_mismatches [1, 0, 1] [0, 2] [Char.ofNat 1633, Char.ofNat 88] ≤ 2 :=
  mismatch_counting_total [1, 0, 1] [0, 2] [Char.ofNat 1633, Char.ofNat 88]
    (by decide) (by decide)

/-- C3: QBER decision boundary.  With a nonempty check sample, DECIDE
terminates with no key (ABORT sent) if and only if
`mismatches / sample_size` is strictly greater than the threshold; a sample
whose error rate equals the threshold is accepted (the CONFIRM_KEY branch
runs). -/
theorem qber_decision_boundary (sifted check_idx : List Nat) (payload : List Char)
    (threshold : ℚ) (key_length : Nat) (hne : check_idx ≠ []) :
    (sender_decide sifted check_idx payload threshold key_length
        = SenderOutcome.abortQberHigh
      ↔ threshold
          < (count_mismatches sifted check_idx payload : ℚ) / (check_idx.length : ℚ))
    ∧ ((count_mismatches sifted check_idx payload : ℚ) / (check_idx.length : ℚ)
          = threshold →
        sender_decide sifted check_idx payload threshold key_length
          ≠ SenderOutcome.abortQberHigh) := by
  have hn : check_idx.length ≠ 0 := fun h => hne (List.length_eq_zero.mp h)
  have hq : qber_of (count_mismatches sifted check_idx payload) check_idx.length
      = (count_mismatches sifted check_idx payload : ℚ) / (check_idx.length : ℚ) :=
    if_pos hn
  have hiff : sender_decide sifted check_idx payload threshold key_length
      = SenderOutcome.abortQberHigh
      ↔ threshold
          < (count_mismatches sifted check_idx payload : ℚ) / (check_idx.length : ℚ) := by
    by_cases hlt : threshold
        < (count_mismatches sifted check_idx payload : ℚ) / (check_idx.length : ℚ)
    · simp [sender_decide, hq, hlt]
    · rcases hfk : final_key_step sifted check_idx key_length with _ | k <;>
        simp [sender_decide, hq, hlt, hfk]
  refine ⟨hiff, fun heq habort => ?_⟩
  have hcon := hiff.mp habort
  rw [heq] at hcon
  exact lt_irrefl _ hcon

/-- C3 witness: two disclosed bits, zero mismatches, threshold 0: the rate
equals the threshold exactly and the session is not aborted. -/
theorem qber_decision_boundary_witness :
    sender_decide [0, 1] [0, 1] [Char.ofNat 48, Char.ofNat 49] 0 1
      ≠ SenderOutcome.abortQberHigh := by
  apply (qber_decision_boundary [0, 1] [0, 1] [Char.ofNat 48, Char.ofNat 49] 0 1
    (by decide)).2
  have h0 : count_mismatches [0, 1] [0, 1] [Char.ofNat 48, Char.ofNat 49] = 0 := by decide
  rw [h0]
  simp

/-- C2: after CONFIRM_KEY, with a sample of distinct in-range indices, the
final key is the sifted key with exactly the sampled positions removed
(order preserving): its pre-truncation length is
`len(sifted) - len(sample)`, every one of its bits comes from an unsampled
sifted-key position, the step ends as Key Too Short (no key) exactly when
fewer than `key_length` bits remain, and otherwise the returned key has
length exactly `key_length`. -/
theorem final_key_removes_sample (sifted check_idx : List Nat) (key_length : Nat)
    (hnd : check_idx.Nodup) (hb : ∀ i ∈ check_idx, i < sifted.length) :
    (final_key_bits sifted check_idx).length = sifted.length - check_idx.length
    ∧ (∀ b ∈ final_key_bits sifted check_idx,
        ∃ i, i < sifted.length ∧ i ∉ check_idx ∧ sifted.get? i = some b)
    ∧ (final_key_step sifted check_idx key_length = none
        ↔ sifted.length - check_idx.length < key_length)
    ∧ (∀ k, final_key_step sifted check_idx key_length = some k
        → k.length = key_length) := by
  have hlen := final_key_bits_length sifted check_idx hnd hb
  refine ⟨hlen, ?_, ?_, ?_⟩
  · intro b hbmem
    rcases List.mem_filterMap.mp hbmem with ⟨i, hi, hget⟩
    rcases List.mem_filter.mp hi with ⟨hr, hp⟩
    exact ⟨i, List.mem_range.mp hr, of_decide_eq_true hp, hget⟩
  · by_cases h : sifted.length - check_idx.length < key_length
    · simp [final_key_step, hlen, h]
    · simp [final_key_step, hlen, h]
  · intro k hk
    by_cases h : sifted.length - check_idx.length < key_length
    · simp [final_key_step, hlen, h] at hk
    · have hk2 : (final_key_bits sifted check_idx).take key_length = k := by
        simpa [final_key_step, hlen, h] using hk
      rw [← hk2, List.length_take, hlen]
      omega

/-- C2 witness: sifted key of 5 bits, sample `{1, 3}`, desired length 3:
exactly 3 bits remain and the key is returned at full desired length. -/
theorem final_key_removes_sample_witness :
    (final_key_bits [1, 0, 1, 1, 0] [1, 3]).length = 3
    ∧ ∀ k, final_key_step [1, 0, 1, 1, 0] [1, 3] 3 = some k → k.length = 3 :=
  ⟨(final_key_removes_sample [1, 0, 1, 1, 0] [1, 3] 3 (by decide) (by decide)).1,
   (final_key_removes_sample [1, 0, 1, 1, 0] [1, 3] 3 (by decide) (by decide)).2.2.2⟩

/-- C4 counterexample: on a sifted key of length 1 (desired key length 16),
the claim's literal shrink rule ("shrunk to `sifted_len // 2`") yields a
sample of size 0 that does leave an unchecked bit, hence no abort — but the
code shrinks to `max(1, sifted_len // 2) = 1` and then aborts with
"insufficient sifted bits". -/
theorem propose_check_len_claim_counterexample :
    propose_check_len_claim 1 16 = some 0 ∧ propose_check_len 1 16 = none := by
  decide

/-- C4 (amended: the shrink step sets the size to `max(1, sifted_len // 2)`,
not `sifted_len // 2`): an empty sifted key aborts; the session aborts with
"insufficient sifted bits" exactly when the sifted length is at most 1; for
a sifted length of at least 2 the proposed sample size is
`max(1, min(sifted_len // 4, 2 * desired_key_length))` (the shrink never
fires there); and the proposed index list — the drawn without-replacement
sample, sorted — is ascending, distinct, in range, and of the drawn size. -/
theorem propose_verification_sizing (n key_length : Nat) (sample : List Nat)
    (hnd : sample.Nodup) (hb : ∀ i ∈ sample, i < n) :
    (propose_check_len 0 key_length = none)
    ∧ (propose_check_len n key_length = none ↔ n ≤ 1)
    ∧ (2 ≤ n → propose_check_len n key_length
        = some (max 1 (min (n / 4) (key_length * 2))))
    ∧ List.Sorted (· ≤ ·) (sorted_check_indices sample)
    ∧ (sorted_check_indices sample).Nodup
    ∧ (∀ i ∈ sorted_check_indices sample, i < n)
    ∧ (sorted_check_indices sample).length = sample.length := by
  have hperm : (sorted_check_indices sample).Perm sample :=
    List.perm_insertionSort (· ≤ ·) sample
  have htwo : ∀ m, 2 ≤ m → propose_check_len m key_length
      = some (max 1 (min (m / 4) (key_length * 2))) := by
    intro m hm
    have h4 : m / 4 < m := Nat.div_lt_self (by omega) (by omega)
    have hmin : min (m / 4) (key_length * 2) ≤ m / 4 := min_le_left _ _
    have hno : ¬ m ≤ max 1 (min (m / 4) (key_length * 2)) := by
      have : max 1 (min (m / 4) (key_length * 2)) < m :=
        max_lt (by omega) (by omega)
      omega
    simp only [propose_check_len]
    rw [if_neg (by omega : ¬ m = 0), if_neg hno, if_neg hno]
  refine ⟨rfl, ?_, htwo n, List.sorted_insertionSort (· ≤ ·) sample,
    hperm.nodup_iff.mpr hnd, fun i hi => hb i (hperm.mem_iff.mp hi),
    hperm.length_eq⟩
  constructor
  · intro hnone
    by_contra hgt
    rw [htwo n (by omega)] at hnone
    exact Option.noConfusion hnone
  · intro hle
    match n, hle with
    | 0, _ => rfl
    | 1, _ =>
      have hmin0 : min (1 / 4) (key_length * 2) = 0 := by
        simp [Nat.zero_min]
      simp only [propose_check_len, hmin0]
      rfl

/-- C4 witness: sifted length 8, desired key length 4, drawn sample
`[5, 2, 7]`: size `max(1, min(2, 8)) = 2` is proposed and the sorted sample
is ascending, distinct, in range and of the drawn size. -/
theorem propose_verification_sizing_witness :
    propose_check_len 8 4 = some 2
    ∧ List.Sorted (· ≤ ·) (sorted_check_indices [5, 2, 7])
    ∧ (sorted_check_indices [5, 2, 7]).Nodup
    ∧ (∀ i ∈ sorted_check_indices [5, 2, 7], i < 8)
    ∧ (sorted_check_indices [5, 2, 7]).length = 3 := by
  have h := propose_verification_sizing 8 4 [5, 2, 7] (by decide) (by decide)
  exact ⟨h.2.2.1 (by decide), h.2.2.2.1, h.2.2.2.2.1, h.2.2.2.2.2.1, h.2.2.2.2.2.2⟩

/-- C6: receiver check-index validation.  For a nonempty received index list,
the receiver aborts with an index-out-of-range protocol violation exactly
when some listed index is negative or not below the sifted-key length;
otherwise it replies with a CHECK_BITS string whose `j`-th character is its
sifted-key bit at the `j`-th requested index, in requested order. -/
theorem receiver_check_index_validation (sifted : List Nat) (idxs : List Int)
    (hne : idxs ≠ []) :
    (receiver_check_bits sifted idxs = none
      ↔ ∃ i ∈ idxs, i < 0 ∨ (sifted.length : Int) ≤ i)
    ∧ (∀ bits, receiver_check_bits sifted idxs = some bits →
        bits.length = idxs.length
        ∧ ∀ j, j < idxs.length →
            bits.get? j = (idxs.get? j).map (fun i => bit_char (sifted.getD i.toNat 0))) := by
  have hemp : idxs.isEmpty = false := by
    rcases idxs with _ | ⟨i, idxs⟩
    · exact absurd rfl hne
    · rfl
  by_cases hbad : ∃ i ∈ idxs, i < 0 ∨ (sifted.length : Int) ≤ i
  · have hany : idxs.any (fun i => decide (i < 0) || decide ((sifted.length : Int) ≤ i))
        = true := by
      rcases hbad with ⟨i, hi, hcase⟩
      refine List.any_eq_true.mpr ⟨i, hi, ?_⟩
      rcases hcase with h | h
      · simp [h]
      · simp [h]
    refine ⟨by simp [receiver_check_bits, hemp, hany, hbad], ?_⟩
    intro bits hbits
    simp [receiver_check_bits, hemp, hany] at hbits
  · have hany : idxs.any (fun i => decide (i < 0) || decide ((sifted.length : Int) ≤ i))
        = false := by
      rw [← Bool.not_eq_true]
      intro hcon
      rcases List.any_eq_true.mp hcon with ⟨i, hi, hp⟩
      rcases Bool.or_eq_true_iff.mp hp with h | h
      · exact hbad ⟨i, hi, Or.inl (of_decide_eq_true h)⟩
      · exact hbad ⟨i, hi, Or.inr (of_decide_eq_true h)⟩
    refine ⟨by simp [receiver_check_bits, hemp, hany, hbad], ?_⟩
    intro bits hbits
    have hbits2 : bits = idxs.map (fun i => bit_char (sifted.getD i.toNat 0)) := by
      have : receiver_check_bits sifted idxs
          = some (idxs.map (fun i => bit_char (sifted.getD i.toNat 0))) := by
        simp [receiver_check_bits, hemp, hany]
      rw [this] at hbits
      exact (Option.some_inj.mp hbits).symm
    subst hbits2
    refine ⟨List.length_map idxs _, ?_⟩
    intro j _
    exact List.get?_map _ idxs j

/-- C6 witness: indices `[2, 0]` against the 3-bit sifted key `[1, 0, 1]`
are in range; the reply exists, has length 2 and discloses the bits in
requested order. -/
theorem receiver_check_index_validation_witness :
    ([Char.ofNat 49, Char.ofNat 49] : List Char).length = ([2, 0] : List Int).length
    ∧ ∀ j, j < ([2, 0] : List Int).length →
        ([Char.ofNat 49, Char.ofNat 49] : List Char).get? j
          = (([2, 0] : List Int).get? j).map
              (fun i => bit_char (([1, 0, 1] : List Nat).getD i.toNat 0)) :=
  (receiver_check_index_validation [1, 0, 1] [2, 0] (by decide)).2
    [Char.ofNat 49, Char.ofNat 49] (by decide)

/-- FIPS 180-4 test vector: SHA-256 of the empty message (digest bytes in
decimal, `e3b0c442...52b855`). -/
theorem sha256_vector_empty : sha256 [] =
    [227, 176, 196, 66, 152, 252, 28, 20,
     154, 251, 244, 200, 153, 111, 185, 36,
     39, 174, 65, 228, 100, 155, 147, 76,
     164, 149, 153, 27, 120, 82, 184, 85] := by
  decide

/-- FIPS 180-4 test vector: SHA-256 of the ASCII message `abc` (digest bytes
in decimal, `ba7816bf...f20015ad`). -/
theorem sha256_vector_abc : sha256 [97, 98, 99] =
    [186, 120, 22, 191, 143, 1, 207, 234,
     65, 65, 64, 222, 93, 174, 34, 35,
     176, 3, 97, 163, 150, 23, 122, 156,
     180, 16, 255, 97, 242, 0, 21, 173] := by
  decide

/-- C7: seed derivation.  `derive_seed_from_key` falls back to a random seed
(no key-determined value) exactly when the key is shorter than 8 bits (in
particular when empty); on a key of at least 8 bits it returns the first 4
bytes of the SHA-256 digest of the key's bits written as '0'/'1' characters,
read as a big-endian unsigned integer — so it is a function of the key alone,
and equal final keys give equal seeds. -/
theorem derive_seed_from_key_spec (key key2 short : List Nat)
    (h8 : 8 ≤ key.length) (hs : short.length < 8) (heq : key2 = key) :
    derive_seed_from_key key
      = some (nat_of_bytes_be ((sha256 (key.map (fun b => 48 + b))).take 4))
    ∧ derive_seed_from_key short = none
    ∧ derive_seed_from_key key2 = derive_seed_from_key key := by
  refine ⟨?_, ?_, by rw [heq]⟩
  · unfold derive_seed_from_key
    rw [if_neg (by omega)]
  · unfold derive_seed_from_key
    rw [if_pos hs]

/-- C7 witness: the 8-bit key `01010101` derives the seed
`int.from_bytes(sha256("01010101")[:4], 'big') = 1785097309`; the empty key
falls back. -/
theorem derive_seed_from_key_spec_witness :
    derive_seed_from_key [0, 1, 0, 1, 0, 1, 0, 1] = some 1785097309
    ∧ derive_seed_from_key [] = none := by
  have h := derive_seed_from_key_spec [0, 1, 0, 1, 0, 1, 0, 1]
    [0, 1, 0, 1, 0, 1, 0, 1] [] (by decide) (by decide) rfl
  refine ⟨?_, h.2.1⟩
  rw [h.1]
  decide

/-- C8: pattern determinism.  For every seeded-generator model
(`random_Random`, `randbelow` are functions, so any two calls with the same
arguments yield the same sequence), the pattern returned by
`generate_hopping_pattern` is the same whatever the global generator state
is, and the global generator state is returned untouched: the output depends
only on the arguments, drawn from a PRNG seeded with `seed` alone. -/
theorem generate_hopping_pattern_deterministic {S G1 G2 α : Type} [Inhabited α]
    (random_Random : Nat → S) (randbelow : S → Nat → Nat × S) (seed : Nat)
    (length : Int) (frequencies : List α) (g1 : G1) (g2 : G2) :
    (generate_hopping_pattern random_Random randbelow seed length frequencies g1).1
      = (generate_hopping_pattern random_Random randbelow seed length frequencies g2).1
    ∧ (generate_hopping_pattern random_Random randbelow seed length frequencies g1).2
      = g1 := by
  unfold generate_hopping_pattern
  by_cases hf : frequencies.isEmpty
  · simp [hf]
  · by_cases hl : length ≤ 0
    · simp [hf, hl]
    · simp [hf, hl]

/-- C8 witness: a concrete generator model (`state % n` then advance) at seed
7, two different global states. -/
theorem generate_hopping_pattern_deterministic_witness :
    (generate_hopping_pattern (fun n => n) (fun s m => (s % m, s + 1)) 7 3
        [10, 20, 30] (0 : Nat)).1
      = (generate_hopping_pattern (fun n => n) (fun s m => (s % m, s + 1)) 7 3
        [10, 20, 30] (99 : Nat)).1
    ∧ (generate_hopping_pattern (fun n => n) (fun s m => (s % m, s + 1)) 7 3
        [10, 20, 30] (0 : Nat)).2 = 0 :=
  generate_hopping_pattern_deterministic (fun n => n) (fun s m => (s % m, s + 1))
    7 3 [10, 20, 30] 0 99

theorem draw_pattern_length {S α : Type} [Inhabited α] (randbelow : S → Nat → Nat × S)
    (freqs : List α) : ∀ (n : Nat) (s : S), (draw_pattern randbelow freqs n s).length = n
  | 0, _ => rfl
  | Nat.succ n, s => by
    simp [draw_pattern, draw_pattern_length randbelow freqs n]

theorem draw_pattern_mem {S α : Type} [Inhabited α] (randbelow : S → Nat → Nat × S)
    (freqs : List α) (hrb : ∀ s m, 0 < m → (randbelow s m).1 < m) (hne : freqs ≠ []) :
    ∀ (n : Nat) (s : S), ∀ x ∈ draw_pattern randbelow freqs n s, x ∈ freqs
  | 0, _ => by intro x hx; simp [draw_pattern] at hx
  | Nat.succ n, s => by
    intro x hx
    have hpos : 0 < freqs.length := List.length_pos.mpr hne
    have hlt : (randbelow s freqs.length).1 < freqs.length := hrb s freqs.length hpos
    rcases List.mem_cons.mp hx with hx | hx
    · rw [hx]
      show freqs.getD (randbelow s freqs.length).1 default ∈ freqs
      rw [List.getD_eq_getElem freqs default hlt]
      exact List.getElem_mem hlt
    · exact draw_pattern_mem randbelow freqs hrb hne n (randbelow s freqs.length).2 x hx

/-- C9: pattern shape.  `generate_hopping_pattern` returns the empty sequence
when the frequency list is empty or `length <= 0`; otherwise (for a
`randbelow` that, as Python's `Random._randbelow` does, returns an index
below its positive bound) it returns exactly `length` elements, each a member
of the frequency list. -/
theorem generate_hopping_pattern_shape {S G α : Type} [Inhabited α]
    (random_Random : Nat → S) (randbelow : S → Nat → Nat × S) (seed : Nat)
    (length : Int) (frequencies : List α) (g : G)
    (hrb : ∀ s m, 0 < m → (randbelow s m).1 < m) :
    (frequencies = [] ∨ length ≤ 0 →
      (generate_hopping_pattern random_Random randbelow seed length frequencies g).1 = [])
    ∧ (frequencies ≠ [] → 0 < length →
        (generate_hopping_pattern random_Random randbelow seed length frequencies g).1.length
            = length.toNat
        ∧ ∀ x ∈ (generate_hopping_pattern random_Random randbelow seed length
            frequencies g).1, x ∈ frequencies) := by
  constructor
  · intro h
    rcases h with h | h
    · simp [generate_hopping_pattern, h]
    · by_cases hf : frequencies.isEmpty
      · simp [generate_hopping_pattern, hf]
      · simp [generate_hopping_pattern, hf, h]
  · intro hne hpos
    have hf : frequencies.isEmpty = false := by
      rw [← Bool.not_eq_true, List.isEmpty_iff]
      exact hne
    have hl : ¬ length ≤ 0 := by omega
    constructor
    · simp only [generate_hopping_pattern, hf, Bool.false_eq_true, if_false, if_neg hl]
      exact draw_pattern_length randbelow frequencies length.toNat (random_Random seed)
    · intro x hx
      simp only [generate_hopping_pattern, hf, Bool.false_eq_true, if_false,
        if_neg hl] at hx
      exact draw_pattern_mem randbelow frequencies hrb hne length.toNat
        (random_Random seed) x hx

/-- C9 witness: the concrete generator model at seed 7 yields exactly 3
elements of the frequency list. -/
theorem generate_hopping_pattern_shape_witness :
    (generate_hopping_pattern (fun n => n) (fun s m => (s % m, s + 1)) 7 3
        [10, 20, 30] (0 : Nat)).1.length = 3
    ∧ ∀ x ∈ (generate_hopping_pattern (fun n => n) (fun s m => (s % m, s + 1)) 7 3
        [10, 20, 30] (0 : Nat)).1, x ∈ ([10, 20, 30] : List Nat) :=
  (generate_hopping_pattern_shape (fun n => n) (fun s m => (s % m, s + 1)) 7 3
    [10, 20, 30] 0 (fun s m h => Nat.mod_lt s h)).2 (by decide) (by decide)

end QkdFh
